import Mathlib

/-!
Verification of the conversation intake and issue-merge engine of the
support-resolution database.

The development shallowly embeds the relevant Python source:

* `src/issue_clusterer.py` — `IssueClusterer._merge` and its helpers
  `_next_issue_id`, `_next_branch_id`, `_find_branch_insert_index`, and
  the JSON-parse fallback of `process_conversation`;
* `src/conversation_utils.py` — `_normalize_apostrophes`,
  `should_auto_ignore`, and `backfill_auto_ignore`.

Python strings are modelled as `String` (sequences of characters); the
string helpers below operate on the underlying `List Char`, which matches
Python's character-level semantics of `split`, slicing and `startswith`.
Python `float` confidence values are modelled as `ℚ`: the merge code only
compares confidences against the literal threshold `0.9` and tests them
for truthiness, so no floating-point rounding behaviour is observable in
the claims under study.  JSON records carry the fixed classification
schema, so records are modelled as structures with every schema field
present.
-/

/-! ### Character-level string helpers -/

/-- The separator character `-` used by issue identifiers. -/
def dash : Char := '-'

/-- Model of Python's `str.split(sep)` for a one-character separator.
`splitSep sep l` never returns `[]`; splitting the empty string yields
`[[]]`, exactly as `"".split("-") == ['']` in Python. -/
def splitSep (sep : Char) : List Char → List (List Char)
  | [] => [[]]
  | c :: rest =>
    match splitSep sep rest with
    | [] => [[]]
    | s :: ss => if c = sep then [] :: s :: ss else (c :: s) :: ss

/-- Value of a most-significant-first list of decimal digit characters. -/
def decValue : List Char → Nat
  | [] => 0
  | c :: rest => (c.toNat - 48) * 10 ^ rest.length + decValue rest

/-- Model of Python's `int(str)` applied to an identifier segment.  The
segments fed to `int` by the merge engine never contain the separator
`-`, so a successful parse is an optional leading `+` followed by a
non-empty run of decimal digits; anything else raises `ValueError`,
modelled as `none`. -/
def parseSeg : List Char → Option Nat
  | [] => none
  | c :: rest =>
    if c = '+' then
      if rest ≠ [] ∧ rest.all Char.isDigit then some (decValue rest) else none
    else
      if (c :: rest).all Char.isDigit then some (decValue (c :: rest)) else none

/-- Decimal digit character for `d < 10` (the only arguments used). -/
def digitChar : Nat → Char
  | 0 => '0' | 1 => '1' | 2 => '2' | 3 => '3' | 4 => '4'
  | 5 => '5' | 6 => '6' | 7 => '7' | 8 => '8' | _ => '9'

/-- Accumulator loop of decimal rendering: peels digits least significant
first, prepending them to `acc`.  The structural `fuel` argument (any
bound on `n`) keeps the function kernel-reducible. -/
def natToDecAux (fuel : Nat) (n : Nat) (acc : List Char) : List Char :=
  match fuel with
  | 0 => acc
  | fuel + 1 =>
    if n = 0 then acc
    else natToDecAux fuel (n / 10) (digitChar (n % 10) :: acc)

/-- Model of Python's `str(n)` for a non-negative integer: its decimal
digits, most significant first; `str(0) = "0"`. -/
def natToDec (n : Nat) : List Char :=
  if n = 0 then ['0'] else natToDecAux n n []

/-- Model of Python's `"%04d" % n` format: the decimal digits of `n`,
left-padded with `0` to width four. -/
def pad4 (n : Nat) : List Char :=
  List.replicate (4 - (natToDec n).length) '0' ++ natToDec n

/-! ### Data model

The classification record carries the fixed schema produced by the
classification adapter (`issue_id, category, short_description, keywords,
root_cause, resolution_steps, confidence, notes`); an issue record
additionally carries the ordered `tickets` list. -/

structure Classification where
  issue_id : Option String
  category : String
  short_description : String
  keywords : List String
  root_cause : String
  resolution_steps : List String
  confidence : ℚ
  notes : String
deriving DecidableEq

structure Issue where
  issue_id : String
  category : String
  short_description : String
  keywords : List String
  root_cause : String
  resolution_steps : List String
  confidence : ℚ
  notes : String
  tickets : List Nat
deriving DecidableEq

/-- Python truthiness of the classification's `issue_id` field
(`issue_data.get("issue_id")` is falsy when the key is `None` or the
empty string). -/
def idTruthy : Option String → Bool
  | none => false
  | some s => s ≠ ""

/-- The issue record appended by `_merge` in its creation paths: the
classification record with `issue_id` and `tickets` set. -/
def mkIssue (c : Classification) (iid : String) (tk : List Nat) : Issue :=
  { issue_id := iid
    category := c.category
    short_description := c.short_description
    keywords := c.keywords
    root_cause := c.root_cause
    resolution_steps := c.resolution_steps
    confidence := c.confidence
    notes := c.notes
    tickets := tk }

/-- The in-place update of the ticket-already-linked guard (cases 1 and 2
of `_merge`): every truthy field of the classification is written onto
the issue, `tickets` is skipped, falsy values are skipped.  Note that the
`issue_id` key of the classification is written when truthy. -/
def guardUpdate (c : Classification) (iss : Issue) : Issue :=
  { issue_id :=
      match c.issue_id with
      | none => iss.issue_id
      | some s => if s = "" then iss.issue_id else s
    category := if c.category = "" then iss.category else c.category
    short_description :=
      if c.short_description = "" then iss.short_description else c.short_description
    keywords := if c.keywords = [] then iss.keywords else c.keywords
    root_cause := if c.root_cause = "" then iss.root_cause else c.root_cause
    resolution_steps :=
      if c.resolution_steps = [] then iss.resolution_steps else c.resolution_steps
    confidence := if c.confidence = 0 then iss.confidence else c.confidence
    notes := if c.notes = "" then iss.notes else c.notes
    tickets := iss.tickets }

/-- First catalog pass of the guard in cases 1 and 2 of `_merge`: find the
first issue whose `tickets` contains `t` and apply `guardUpdate`;
`none` when no issue links `t`. -/
def updateFirstLinked (c : Classification) (t : Nat) : List Issue → Option (List Issue)
  | [] => none
  | iss :: rest =>
    if t ∈ iss.tickets then some (guardUpdate c iss :: rest)
    else (updateFirstLinked c t rest).map (iss :: ·)

/-- The high-confidence update of case 3 of `_merge`: every key of the
classification except `tickets` overwrites the issue (the `issue_id`
written is the returned identifier `rid`), and `t` is appended to
`tickets` when not already present. -/
def case3Update (c : Classification) (rid : String) (t : Nat) (iss : Issue) : Issue :=
  { issue_id := rid
    category := c.category
    short_description := c.short_description
    keywords := c.keywords
    root_cause := c.root_cause
    resolution_steps := c.resolution_steps
    confidence := c.confidence
    notes := c.notes
    tickets := if t ∈ iss.tickets then iss.tickets else iss.tickets ++ [t] }

/-- Case-3 catalog pass of `_merge`: find the first issue whose
`issue_id` equals the returned identifier and apply `case3Update`. -/
def updateFirstById (c : Classification) (rid : String) (t : Nat) :
    List Issue → Option (List Issue)
  | [] => none
  | iss :: rest =>
    if iss.issue_id = rid then some (case3Update c rid t iss :: rest)
    else (updateFirstById c rid t rest).map (iss :: ·)

/-- The max-accumulator scan shared by `_next_issue_id` and
`_next_branch_id`: fold the catalog with `max`, skipping entries on
which the per-entry parse `f` raises (`none`), starting from `0`. -/
def optMaxFold (f : Issue → Option Nat) (issues : List Issue) : Nat :=
  issues.foldl
    (fun m iss =>
      match f iss with
      | some n => max m n
      | none => m) 0

/-- Per-entry body of the `_next_issue_id` scan:
`int(iss["issue_id"].split("-")[-1])`, `none` on `ValueError`. -/
def trailingNum (s : String) : Option Nat :=
  parseSeg ((splitSep dash s.data).getLastD [])

/-- Embedding of `_next_issue_id`: one more than the maximum trailing
dash-segment over all catalog entries (entries whose trailing segment
does not parse are skipped), formatted as `ISSUE-%04d`. -/
def next_issue_id (issues : List Issue) : String :=
  String.mk ("ISSUE-".data ++ pad4 (optMaxFold (fun iss => trailingNum iss.issue_id) issues + 1))

/-- Per-entry body of the `_next_branch_id parent` scan: when the
identifier starts with `parent ++ "-"`, the first dash-segment of the
remainder parsed as an integer; `none` otherwise or on `ValueError`. -/
def branchSegNum (parent : String) (s : String) : Option Nat :=
  if (parent.data ++ [dash]).isPrefixOf s.data then
    parseSeg ((splitSep dash (s.data.drop (parent.data ++ [dash]).length)).headD [])
  else none

/-- Embedding of `_next_branch_id parent`: one more than the maximum of
the first dash-segment after the prefix `parent ++ "-"` over all entries
whose identifier starts with that prefix, rendered as
`parent-<max+1>`. -/
def next_branch_id (issues : List Issue) (parent : String) : String :=
  String.mk (parent.data ++ dash ::
    natToDec (optMaxFold (fun iss => branchSegNum parent iss.issue_id) issues + 1))

/-- The per-entry test of the `_find_branch_insert_index` loop: the entry
is the parent itself or its identifier starts with `parent ++ "-"`. -/
def relatedTo (parent : String) (iss : Issue) : Bool :=
  iss.issue_id == parent || (parent.data ++ [dash]).isPrefixOf iss.issue_id.data

/-- Embedding of `_find_branch_insert_index parent`: one past the index
of the last entry related to the parent, or the catalog length when no
related entry exists.  The fold state is
`(current index, last_related_idx + 1)` with `0` encoding "no related
entry seen". -/
def find_branch_insert_index (issues : List Issue) (parent : String) : Nat :=
  let r := (issues.foldl
    (fun (acc : Nat × Nat) iss =>
      (acc.1 + 1, if relatedTo parent iss then acc.1 + 1 else acc.2))
    (0, 0)).2
  if r = 0 then issues.length else r

/-- Embedding of `IssueClusterer._merge`: the three-way decision on the
classification's `issue_id` truthiness and confidence threshold `0.9`,
returning the updated catalog. -/
def merge (issues : List Issue) (c : Classification) (t : Nat) : List Issue :=
  if idTruthy c.issue_id = false then
    match updateFirstLinked c t issues with
    | some l => l
    | none => issues ++ [mkIssue c (next_issue_id issues) [t]]
  else
    let rid := c.issue_id.getD ""
    if c.confidence < mkRat 9 10 then
      match updateFirstLinked c t issues with
      | some l => l
      | none =>
        (issues.insertIdx (find_branch_insert_index issues rid)
          (mkIssue c (next_branch_id issues rid) [t]))
    else
      match updateFirstById c rid t issues with
      | some l => l
      | none => issues ++ [mkIssue c rid [t]]

/-- Embedding of `IssueClusterer.has_ticket`. -/
def has_ticket (issues : List Issue) (t : Nat) : Bool :=
  issues.any (fun iss => t ∈ iss.tickets)

/-! ### Classification adapter: parse-failure fallback

`process_conversation` parses the raw model response as JSON; on
`json.JSONDecodeError` it substitutes a synthetic low-confidence record
carrying the raw text in `notes`.  The JSON parser itself is external to
the merge engine's behaviour, so it is a parameter here: `parse raw =
none` models a `JSONDecodeError`.  The embedded adapter is a total
function, so no exception can propagate. -/

/-- The synthetic record substituted on a JSON parse failure (the
`except json.JSONDecodeError` branch of `process_conversation`).  The
Python fallback dict has no `short_description` key; since the fallback's
`issue_id` is `None` and its confidence `0.0`, the merge engine only ever
reads it through the case-1 guard, which skips falsy values, so modelling
the absent key as `""` is observationally faithful. -/
def fallbackClassification (raw : String) : Classification :=
  { issue_id := none
    category := "unknown"
    short_description := ""
    keywords := []
    root_cause := ""
    resolution_steps := []
    confidence := 0
    notes := raw }

/-- The parse step of `process_conversation`: the parsed record when the
raw text is valid JSON of the expected schema, the synthetic fallback
otherwise. -/
def parseOrFallback (parse : String → Option Classification) (raw : String) : Classification :=
  match parse raw with
  | some c => c
  | none => fallbackClassification raw

/-- Embedding of the tail of `process_conversation`: parse the raw
response (with fallback) and fold the result into the catalog via
`_merge`. -/
def process_conversation (parse : String → Option Classification)
    (issues : List Issue) (raw : String) (t : Nat) : List Issue :=
  merge issues (parseOrFallback parse raw) t

/-! ### Conversation utilities -/

/-- One conversation message.  `should_auto_ignore` reads only the
`speaker` and `text` keys, so the optional `private` flag is omitted from
the model. -/
structure Message where
  speaker : String
  text : String
deriving DecidableEq

/-- The straight-apostrophe character `'` (U+0027). -/
def apos : Char := Char.ofNat 39

/-- Embedding of `_normalize_apostrophes`: the four one-character
`str.replace` calls collapsing U+2019, U+2018, U+02BC and U+2032 to the
straight apostrophe, expressed as a single character map. -/
def normalize_apostrophes (s : String) : String :=
  String.mk (s.data.map (fun c =>
    if c = Char.ofNat 0x2019 ∨ c = Char.ofNat 0x2018 ∨
        c = Char.ofNat 0x02BC ∨ c = Char.ofNat 0x2032 then apos else c))

/-- The configured `AUTO_IGNORE_PHRASES` of `conversation_utils.py`. -/
def AUTO_IGNORE_PHRASES : List String :=
  [String.mk ("We wanted to check in since we haven".data ++ apos :: "t heard back from you".data),
   "This ticket is closed and merged"]

/-- Model of Python's substring test `needle in hay` on character
lists. -/
def hasInfix (needle : List Char) : List Char → Bool
  | [] => needle.isEmpty
  | c :: rest => needle.isPrefixOf (c :: rest) || hasInfix needle rest

/-- Embedding of `should_auto_ignore`: `False` for an empty message
list or when the last message's speaker is not `agent`; otherwise the
apostrophe-normalized text of the last message is tested for containment
of any configured phrase. -/
def should_auto_ignore (messages : List Message) : Bool :=
  match messages.getLast? with
  | none => false
  | some m =>
    if m.speaker ≠ "agent" then false
    else AUTO_IGNORE_PHRASES.any
      (fun p => hasInfix p.data (normalize_apostrophes m.text).data)

/-- One cached conversation record: ticket identifier, message list, and
the mutable `ignore` flag. -/
structure ConvRec where
  ticket_id : Nat
  messages : List Message
  ignore : Bool
deriving DecidableEq

/-- Per-record body of the `backfill_auto_ignore` loop: an already
ignored record is skipped; otherwise the record is flagged when
`should_auto_ignore` fires.  The boolean reports whether the record was
rewritten (counted in `total_auto_ignored`). -/
def autoIgnoreStep (c : ConvRec) : ConvRec × Bool :=
  if c.ignore then (c, false)
  else if should_auto_ignore c.messages then ({ c with ignore := true }, true)
  else (c, false)

/-- Embedding of `backfill_auto_ignore` over an in-memory cache (the
on-disk loop over well-formed conversation files): the rewritten cache
together with the `(total_checked, total_auto_ignored)` counts. -/
def backfill_auto_ignore (cache : List ConvRec) : List ConvRec × Nat × Nat :=
  (cache.map (fun c => (autoIgnoreStep c).1),
   cache.length,
   (cache.filter (fun c => (autoIgnoreStep c).2)).length)

/-! ### Catalog invariants -/

/-- Disjointness of two ticket lists. -/
def ListDisj (a b : List Nat) : Prop := ∀ s, s ∈ a → s ∉ b

/-- The catalog invariant "every ticket identifier appears in at most one
issue's `tickets` list": the ticket lists are pairwise disjoint. -/
def TicketsDisjoint (issues : List Issue) : Prop :=
  (issues.map Issue.tickets).Pairwise ListDisj

/-- The catalog invariant "`issue_id` unique across the catalog". -/
def IdsUnique (issues : List Issue) : Prop :=
  (issues.map Issue.issue_id).Nodup

instance : DecidablePred TicketsDisjoint := fun issues => by
  unfold TicketsDisjoint
  have : DecidableRel ListDisj := fun a b => by unfold ListDisj; infer_instance
  infer_instance

instance : DecidablePred IdsUnique := fun issues => by
  unfold IdsUnique; infer_instance

/-! ### Specification-side definitions

The following definitions transcribe the words of the specification (not
the source); they exist to be compared against the embedded source
functions above. -/

/-- Numeric suffix of a ROOT-form identifier only, following the claim
that root allocation scans "the maximum numeric suffix among existing
ROOT-form identifiers only": an identifier of the pure shape
`ISSUE-<segment>` (exactly two dash-segments, first one `ISSUE`) yields
its parsed suffix; branch-form identifiers (extra `-n` segments) yield
`none`. -/
def rootNum? (s : String) : Option Nat :=
  match splitSep dash s.data with
  | [a, b] => if a = "ISSUE".data then parseSeg b else none
  | _ => none

/-- Root allocation as claimed by the specification: one greater than
the maximum numeric suffix among ROOT-form identifiers only, formatted
as `ISSUE-%04d`. -/
def spec_next_root_id (issues : List Issue) : String :=
  String.mk ("ISSUE-".data ++
    pad4 ((issues.filterMap (fun iss => rootNum? iss.issue_id)).foldr max 0 + 1))

/-- Maximum trailing dash-segment over all identifiers, branch forms
included — the quantity the source scan actually maximises, phrased
independently of the fold. -/
def maxTrailingNum (issues : List Issue) : Nat :=
  (issues.filterMap (fun iss => trailingNum iss.issue_id)).foldr max 0

/-- Maximum immediate branch counter of a parent, phrased as in the
specification: over "all existing entries whose identifier starts with
`<parent>-`", the "first path segment after the parent prefix" parsed as
an integer; `0` if none exist. -/
def maxBranchSeg (issues : List Issue) (parent : String) : Nat :=
  (issues.filterMap (fun iss => branchSegNum parent iss.issue_id)).foldr max 0

/-- Index of the last catalog entry that is the parent itself or an
existing sibling branch, phrased recursively: the branch insert position
claimed by the specification is one past this index, or the catalog
length when no related entry exists. -/
def lastRelated (parent : String) : List Issue → Option Nat
  | [] => none
  | iss :: rest =>
    match lastRelated parent rest with
    | some j => some (j + 1)
    | none => if relatedTo parent iss then some 0 else none

/-- Auto-ignore as worded by claim C7: the last message's speaker is
`agent` and its apostrophe-normalized text EXACTLY equals a configured
phrase. -/
def spec_auto_ignore_exact (messages : List Message) : Bool :=
  match messages.getLast? with
  | none => false
  | some m =>
    m.speaker == "agent" &&
      AUTO_IGNORE_PHRASES.any (fun p => normalize_apostrophes m.text == p)

/-! ### Concrete fixtures for counterexamples and witnesses -/

/-- A fold of `merge` over a sequence of `(classification, ticket)`
requests, modelling a whole processing run. -/
def mergeAll (issues : List Issue) (reqs : List (Classification × Nat)) : List Issue :=
  reqs.foldl (fun acc r => merge acc r.1 r.2) issues

/-- A fully populated sample catalog entry. -/
def sampleIssue (iid : String) (tk : List Nat) : Issue :=
  { issue_id := iid
    category := "net"
    short_description := "timeouts"
    keywords := ["vpn"]
    root_cause := "dns"
    resolution_steps := ["restart"]
    confidence := mkRat 1 2
    notes := "sample"
    tickets := tk }

/-- A sample low-confidence classification referencing `iid`. -/
def lowConfTo (iid : String) : Classification :=
  { issue_id := some iid
    category := "net"
    short_description := ""
    keywords := []
    root_cause := ""
    resolution_steps := []
    confidence := mkRat 1 2
    notes := "" }

/-- A sample high-confidence classification referencing `iid`. -/
def highConfTo (iid : String) : Classification :=
  { issue_id := some iid
    category := "auth"
    short_description := "lockout"
    keywords := []
    root_cause := ""
    resolution_steps := []
    confidence := mkRat 19 20
    notes := "" }

/-- The two-root catalog of the specification's branch-placement
example. -/
def exampleCatalog : List Issue :=
  [sampleIssue "ISSUE-0001" [1], sampleIssue "ISSUE-0002" [2]]

/-- A cached conversation whose last message is an agent merge notice. -/
def convAgent : ConvRec :=
  { ticket_id := 1
    messages := [{ speaker := "agent", text := "This ticket is closed and merged" }]
    ignore := false }

/-- A cached conversation already marked ignored. -/
def convIgnored : ConvRec :=
  { ticket_id := 2
    messages := []
    ignore := true }

/-! ### Lemmas: splitting and decimal parsing -/

theorem splitSep_ne_nil (sep : Char) (l : List Char) : splitSep sep l ≠ [] := by
  induction l with
  | nil => simp [splitSep]
  | cons c rest ih =>
    simp only [splitSep]
    split
    · simp
    · split <;> simp

theorem splitSep_of_not_mem {sep : Char} {l : List Char} (h : sep ∉ l) :
    splitSep sep l = [l] := by
  induction l with
  | nil => rfl
  | cons c rest ih =>
    have hc : c ≠ sep := fun hc => h (hc ▸ List.mem_cons_self c rest)
    have hr : sep ∉ rest := fun hm => h (List.mem_cons_of_mem c hm)
    simp only [splitSep, ih hr]
    simp [hc]

theorem splitSep_append {sep : Char} {l₁ : List Char} (l₂ : List Char) (h : sep ∉ l₁) :
    splitSep sep (l₁ ++ sep :: l₂) = l₁ :: splitSep sep l₂ := by
  induction l₁ with
  | nil =>
    simp only [List.nil_append, splitSep]
    match hs : splitSep sep l₂ with
    | [] => exact absurd hs (splitSep_ne_nil sep l₂)
    | s :: ss => simp
  | cons c rest ih =>
    have hc : c ≠ sep := fun hc => h (hc ▸ List.mem_cons_self c rest)
    have hr : sep ∉ rest := fun hm => h (List.mem_cons_of_mem c hm)
    rw [List.cons_append]
    simp only [splitSep]
    rw [ih hr]
    simp [hc]

theorem decValue_cons_zero (l : List Char) : decValue ('0' :: l) = decValue l := by
  simp [decValue]

theorem decValue_replicate_zero (m : Nat) (l : List Char) :
    decValue (List.replicate m '0' ++ l) = decValue l := by
  induction m with
  | zero => rfl
  | succ k ih => simpa [List.replicate_succ, decValue_cons_zero] using ih

theorem digitChar_isDigit (d : Nat) : (digitChar d).isDigit = true := by
  unfold digitChar
  split <;> decide

theorem digitChar_toNat (d : Nat) (h : d < 10) : (digitChar d).toNat = 48 + d := by
  interval_cases d <;> decide

theorem natToDecAux_zero_fuel (n : Nat) (acc : List Char) : natToDecAux 0 n acc = acc := rfl

theorem natToDecAux_succ_pos (fuel n : Nat) (acc : List Char) (h : n ≠ 0) :
    natToDecAux (fuel + 1) n acc = natToDecAux fuel (n / 10) (digitChar (n % 10) :: acc) := by
  simp [natToDecAux, h]

theorem natToDecAux_spec : ∀ (fuel n : Nat), n ≤ fuel → ∀ acc,
    decValue (natToDecAux fuel n acc) = n * 10 ^ acc.length + decValue acc := by
  intro fuel
  induction fuel with
  | zero =>
    intro n hn acc
    have : n = 0 := Nat.le_zero.mp hn
    subst this
    simp [natToDecAux_zero_fuel]
  | succ fuel ih =>
    intro n hn acc
    by_cases h : n = 0
    · subst h
      simp [natToDecAux, decValue]
    · rw [natToDecAux_succ_pos fuel n acc h]
      have hdiv : n / 10 < n := Nat.div_lt_self (Nat.pos_of_ne_zero h) (by norm_num)
      have hfuel : n / 10 ≤ fuel := by omega
      rw [ih (n / 10) hfuel]
      have hdv : decValue (digitChar (n % 10) :: acc) =
          (n % 10) * 10 ^ acc.length + decValue acc := by
        have hmod : n % 10 < 10 := Nat.mod_lt _ (by norm_num)
        simp [decValue, digitChar_toNat _ hmod]
      rw [hdv]
      have hpow : n / 10 * 10 ^ (acc.length + 1) = n / 10 * 10 * 10 ^ acc.length := by
        rw [pow_succ]; ring
      simp only [List.length_cons, hpow]
      have hdm : 10 * (n / 10) + n % 10 = n := Nat.div_add_mod n 10
      calc n / 10 * 10 * 10 ^ acc.length + ((n % 10) * 10 ^ acc.length + decValue acc)
          = (10 * (n / 10) + n % 10) * 10 ^ acc.length + decValue acc := by ring
        _ = n * 10 ^ acc.length + decValue acc := by rw [hdm]

theorem natToDecAux_mem : ∀ (fuel n : Nat) (acc : List Char) (c : Char),
    c ∈ natToDecAux fuel n acc → c ∈ acc ∨ c.isDigit = true := by
  intro fuel
  induction fuel with
  | zero =>
    intro n acc c hc
    rw [natToDecAux_zero_fuel] at hc
    exact Or.inl hc
  | succ fuel ih =>
    intro n acc c hc
    by_cases h : n = 0
    · subst h
      simp only [natToDecAux] at hc
      simp at hc
      exact Or.inl hc
    · rw [natToDecAux_succ_pos fuel n acc h] at hc
      rcases ih (n / 10) _ c hc with hmem | hdig
      · rcases List.mem_cons.mp hmem with rfl | hacc
        · exact Or.inr (digitChar_isDigit _)
        · exact Or.inl hacc
      · exact Or.inr hdig

theorem natToDecAux_acc : ∀ (fuel n : Nat) (acc : List Char),
    natToDecAux fuel n acc = natToDecAux fuel n [] ++ acc := by
  intro fuel
  induction fuel with
  | zero => intro n acc; simp [natToDecAux_zero_fuel]
  | succ fuel ih =>
    intro n acc
    by_cases h : n = 0
    · subst h
      simp [natToDecAux]
    · rw [natToDecAux_succ_pos fuel n acc h, natToDecAux_succ_pos fuel n [] h,
        ih (n / 10) (digitChar (n % 10) :: acc), ih (n / 10) (digitChar (n % 10) :: [])]
      simp

theorem natToDec_all_digit (n : Nat) : ∀ c ∈ natToDec n, c.isDigit = true := by
  intro c hc
  unfold natToDec at hc
  by_cases h : n = 0
  · simp only [h, if_true, List.mem_singleton] at hc
    subst hc; decide
  · simp only [h, if_false] at hc
    rcases natToDecAux_mem n n [] c hc with hmem | hdig
    · simp at hmem
    · exact hdig

theorem natToDec_ne_nil (n : Nat) : natToDec n ≠ [] := by
  unfold natToDec
  by_cases h : n = 0
  · simp [h]
  · simp only [h, if_false]
    obtain ⟨m, rfl⟩ : ∃ m, n = m + 1 := ⟨n - 1, by omega⟩
    rw [natToDecAux_succ_pos m _ [] h, natToDecAux_acc]
    simp

theorem decValue_natToDec (n : Nat) : decValue (natToDec n) = n := by
  unfold natToDec
  by_cases h : n = 0
  · simp [h, decValue]
  · simp only [h, if_false]
    simpa [decValue] using natToDecAux_spec n n le_rfl []

theorem parseSeg_digits {l : List Char} (hne : l ≠ [])
    (hdig : ∀ c ∈ l, c.isDigit = true) : parseSeg l = some (decValue l) := by
  match l, hne with
  | c :: rest, _ =>
    have hc : c ≠ '+' := by
      intro hc
      have := hdig c (List.mem_cons_self c rest)
      rw [hc] at this
      exact absurd this (by decide)
    have hall : (c :: rest).all Char.isDigit = true :=
      List.all_eq_true.mpr (fun x hx => hdig x hx)
    simp [parseSeg, hc, hall]

theorem parseSeg_natToDec (n : Nat) : parseSeg (natToDec n) = some n := by
  rw [parseSeg_digits (natToDec_ne_nil n) (natToDec_all_digit n), decValue_natToDec]

theorem pad4_eq (n : Nat) :
    pad4 n = List.replicate (4 - (natToDec n).length) '0' ++ natToDec n := rfl

theorem pad4_ne_nil (n : Nat) : pad4 n ≠ [] := by
  rw [pad4_eq]
  intro h
  rcases List.append_eq_nil.mp h with ⟨-, h2⟩
  exact natToDec_ne_nil n h2

theorem pad4_all_digit (n : Nat) : ∀ c ∈ pad4 n, c.isDigit = true := by
  intro c hc
  rw [pad4_eq] at hc
  rcases List.mem_append.mp hc with hrep | hdec
  · rw [List.eq_of_mem_replicate hrep]; decide
  · exact natToDec_all_digit n c hdec

theorem parseSeg_pad4 (n : Nat) : parseSeg (pad4 n) = some n := by
  rw [parseSeg_digits (pad4_ne_nil n) (pad4_all_digit n), pad4_eq,
    decValue_replicate_zero, decValue_natToDec]

theorem dash_not_isDigit : dash.isDigit = false := by decide

theorem dash_not_mem_natToDec (n : Nat) : dash ∉ natToDec n := by
  intro h
  have := natToDec_all_digit n dash h
  rw [dash_not_isDigit] at this
  exact absurd this (by decide)

theorem dash_not_mem_pad4 (n : Nat) : dash ∉ pad4 n := by
  intro h
  have := pad4_all_digit n dash h
  rw [dash_not_isDigit] at this
  exact absurd this (by decide)

/-- The trailing dash-segment of a freshly allocated root identifier
parses back to its numeric suffix. -/
theorem trailingNum_root (k : Nat) :
    trailingNum (String.mk ("ISSUE-".data ++ pad4 k)) = some k := by
  unfold trailingNum
  show parseSeg ((splitSep dash ("ISSUE-".data ++ pad4 k)).getLastD []) = some k
  have h1 : "ISSUE-".data = "ISSUE".data ++ [dash] := by decide
  rw [h1, List.append_assoc, List.singleton_append,
    splitSep_append _ (by decide), splitSep_of_not_mem (dash_not_mem_pad4 k)]
  simp [parseSeg_pad4]

/-! ### Lemmas: the max-accumulator scan -/

theorem foldl_optmax (f : Issue → Option Nat) (l : List Issue) :
    ∀ a, l.foldl
        (fun m iss =>
          match f iss with
          | some n => max m n
          | none => m) a
      = max a ((l.filterMap f).foldr max 0) := by
  induction l with
  | nil => intro a; simp
  | cons iss rest ih =>
    intro a
    simp only [List.foldl_cons, List.filterMap_cons]
    cases hf : f iss with
    | none => simp only [hf]; rw [ih a]
    | some n =>
      simp only [hf, List.foldr_cons]
      rw [ih (max a n)]
      exact (Nat.max_assoc a n _)

theorem optMaxFold_eq (f : Issue → Option Nat) (l : List Issue) :
    optMaxFold f l = (l.filterMap f).foldr max 0 := by
  unfold optMaxFold
  rw [foldl_optmax]
  simp

theorem le_foldr_max {n : Nat} {L : List Nat} (h : n ∈ L) : n ≤ L.foldr max 0 := by
  induction L with
  | nil => simp at h
  | cons m rest ih =>
    rcases List.mem_cons.mp h with rfl | hmem
    · exact Nat.le_max_left _ _
    · exact le_trans (ih hmem) (Nat.le_max_right _ _)

theorem optMaxFold_ge {f : Issue → Option Nat} {l : List Issue} {iss : Issue} {n : Nat}
    (hmem : iss ∈ l) (hf : f iss = some n) : n ≤ optMaxFold f l := by
  rw [optMaxFold_eq]
  exact le_foldr_max (List.mem_filterMap.mpr ⟨iss, hmem, hf⟩)

theorem next_issue_id_eq (issues : List Issue) :
    next_issue_id issues = String.mk ("ISSUE-".data ++ pad4 (maxTrailingNum issues + 1)) := by
  unfold next_issue_id maxTrailingNum
  rw [optMaxFold_eq]

theorem next_branch_id_eq (issues : List Issue) (parent : String) :
    next_branch_id issues parent
      = String.mk (parent.data ++ dash :: natToDec (maxBranchSeg issues parent + 1)) := by
  unfold next_branch_id maxBranchSeg
  rw [optMaxFold_eq]

/-! ### Lemmas: freshness of allocated identifiers -/

theorem trailingNum_next_issue_id (issues : List Issue) :
    trailingNum (next_issue_id issues) = some (maxTrailingNum issues + 1) := by
  rw [next_issue_id_eq]
  exact trailingNum_root _

/-- No catalog entry carries the identifier allocated by
`_next_issue_id`: its trailing segment would have to exceed the scanned
maximum. -/
theorem next_issue_id_fresh (issues : List Issue) :
    ∀ iss ∈ issues, iss.issue_id ≠ next_issue_id issues := by
  intro iss hmem heq
  have h1 : trailingNum iss.issue_id = some (maxTrailingNum issues + 1) := by
    rw [heq]; exact trailingNum_next_issue_id issues
  have h2 : maxTrailingNum issues + 1 ≤ optMaxFold (fun i => trailingNum i.issue_id) issues :=
    optMaxFold_ge hmem h1
  rw [optMaxFold_eq] at h2
  exact absurd h2 (by simp [maxTrailingNum])

theorem branchSegNum_self (parent : String) (k : Nat) :
    branchSegNum parent (String.mk (parent.data ++ dash :: natToDec k)) = some k := by
  unfold branchSegNum
  have hdata : (String.mk (parent.data ++ dash :: natToDec k)).data
      = (parent.data ++ [dash]) ++ natToDec k := by
    show parent.data ++ dash :: natToDec k = (parent.data ++ [dash]) ++ natToDec k
    rw [List.append_assoc, List.singleton_append]
  rw [hdata]
  have hpre : (parent.data ++ [dash]).isPrefixOf ((parent.data ++ [dash]) ++ natToDec k) = true :=
    List.isPrefixOf_iff_prefix.mpr ⟨natToDec k, rfl⟩
  rw [hpre]
  simp only [if_true]
  rw [List.drop_left, splitSep_of_not_mem (dash_not_mem_natToDec k)]
  simp [parseSeg_natToDec]

theorem lastRelated_nil (parent : String) : lastRelated parent [] = none := rfl

theorem lastRelated_cons (parent : String) (iss : Issue) (rest : List Issue) :
    lastRelated parent (iss :: rest)
      = match lastRelated parent rest with
        | some j => some (j + 1)
        | none => if relatedTo parent iss then some 0 else none := rfl

theorem branchSegNum_next_branch_id (issues : List Issue) (parent : String) :
    branchSegNum parent (next_branch_id issues parent)
      = some (maxBranchSeg issues parent + 1) := by
  rw [next_branch_id_eq]
  exact branchSegNum_self parent _

/-- No catalog entry carries the identifier allocated by
`_next_branch_id`: its immediate branch segment would have to exceed the
scanned maximum. -/
theorem next_branch_id_fresh (issues : List Issue) (parent : String) :
    ∀ iss ∈ issues, iss.issue_id ≠ next_branch_id issues parent := by
  intro iss hmem heq
  have h1 : branchSegNum parent iss.issue_id = some (maxBranchSeg issues parent + 1) := by
    rw [heq]; exact branchSegNum_next_branch_id issues parent
  have h2 : maxBranchSeg issues parent + 1
      ≤ optMaxFold (fun i => branchSegNum parent i.issue_id) issues :=
    optMaxFold_ge hmem h1
  rw [optMaxFold_eq] at h2
  exact absurd h2 (by simp [maxBranchSeg])

/-! ### Lemmas: the branch insert index -/

theorem fbii_foldl (parent : String) (l : List Issue) :
    ∀ i r, (l.foldl
        (fun (acc : Nat × Nat) iss =>
          (acc.1 + 1, if relatedTo parent iss then acc.1 + 1 else acc.2))
        (i, r)).2
      = match lastRelated parent l with
        | some j => i + j + 1
        | none => r := by
  induction l with
  | nil => intro i r; simp [lastRelated]
  | cons iss rest ih =>
    intro i r
    simp only [List.foldl_cons]
    rw [ih (i + 1) (if relatedTo parent iss then i + 1 else r), lastRelated_cons]
    cases hlr : lastRelated parent rest with
    | some j =>
      simp only [hlr]
      show i + 1 + j + 1 = i + (j + 1) + 1
      omega
    | none =>
      simp only [hlr]
      by_cases hrel : relatedTo parent iss
      · simp [hrel]
      · simp [hrel]

theorem find_branch_insert_index_eq (issues : List Issue) (parent : String) :
    find_branch_insert_index issues parent
      = match lastRelated parent issues with
        | some j => j + 1
        | none => issues.length := by
  unfold find_branch_insert_index
  rw [fbii_foldl]
  cases hlr : lastRelated parent issues with
  | some j => simp
  | none => simp

theorem lastRelated_lt_length {parent : String} {l : List Issue} {j : Nat}
    (h : lastRelated parent l = some j) : j < l.length := by
  induction l generalizing j with
  | nil => simp [lastRelated] at h
  | cons iss rest ih =>
    rw [lastRelated_cons] at h
    cases hlr : lastRelated parent rest with
    | some j' =>
      rw [hlr] at h
      cases h
      exact Nat.succ_lt_succ (ih hlr)
    | none =>
      rw [hlr] at h
      by_cases hrel : relatedTo parent iss
      · simp [hrel] at h
        subst h
        simp
      · simp [hrel] at h

theorem find_branch_insert_index_le (issues : List Issue) (parent : String) :
    find_branch_insert_index issues parent ≤ issues.length := by
  rw [find_branch_insert_index_eq]
  cases hlr : lastRelated parent issues with
  | some j => simpa using lastRelated_lt_length hlr
  | none => simp

theorem lastRelated_none_iff (parent : String) (l : List Issue) :
    lastRelated parent l = none ↔ ∀ iss ∈ l, relatedTo parent iss = false := by
  induction l with
  | nil => simp [lastRelated]
  | cons iss rest ih =>
    rw [lastRelated_cons]
    cases hlr : lastRelated parent rest with
    | some j =>
      simp only [hlr]
      constructor
      · intro h; cases h
      · intro h
        have := (ih.mpr (fun a ha => h a (List.mem_cons_of_mem _ ha)))
        rw [hlr] at this; cases this
    | none =>
      simp only [hlr]
      constructor
      · intro h
        by_cases hrel : relatedTo parent iss
        · simp [hrel] at h
        · intro a ha
          rcases List.mem_cons.mp ha with rfl | hmem
          · exact Bool.eq_false_iff.mpr hrel
          · exact (ih.mp hlr) a hmem
      · intro h
        have : relatedTo parent iss = false := h iss (List.mem_cons_self _ _)
        simp [this]

/-! ### Lemmas: insertion as a permutation -/

theorem insertIdx_perm (a : Issue) : ∀ (k : Nat) (l : List Issue), k ≤ l.length →
    List.Perm (l.insertIdx k a) (a :: l) := by
  intro k
  induction k with
  | zero =>
    intro l _
    rw [List.insertIdx_zero]
  | succ k ih =>
    intro l hk
    cases l with
    | nil => simp at hk
    | cons x xs =>
      rw [List.insertIdx_succ_cons]
      exact List.Perm.trans (List.Perm.cons x (ih xs (Nat.le_of_succ_le_succ hk)))
        (List.Perm.swap a x xs)

/-! ### Lemmas: the ticket-already-linked guard pass -/

theorem guardUpdate_tickets (c : Classification) (iss : Issue) :
    (guardUpdate c iss).tickets = iss.tickets := rfl

theorem guardUpdate_idem (c : Classification) (iss : Issue) :
    guardUpdate c (guardUpdate c iss) = guardUpdate c iss := by
  unfold guardUpdate
  cases hid : c.issue_id with
  | none => simp only [hid]; split <;> split <;> split <;> split <;> split <;> split <;> simp_all
  | some s =>
    by_cases hs : s = "" <;>
      simp only [hid, hs] <;>
      split <;> split <;> split <;> split <;> split <;> split <;> simp_all

theorem guardUpdate_id_of_falsy {c : Classification} (h : idTruthy c.issue_id = false)
    (iss : Issue) : (guardUpdate c iss).issue_id = iss.issue_id := by
  unfold guardUpdate
  cases hid : c.issue_id with
  | none => rfl
  | some s =>
    rw [hid] at h
    unfold idTruthy at h
    simp only [decide_eq_false_iff_not, not_not] at h
    simp [h]

theorem guardUpdate_mkIssue {c : Classification} (h : idTruthy c.issue_id = false)
    (iid : String) (tk : List Nat) :
    guardUpdate c (mkIssue c iid tk) = mkIssue c iid tk := by
  unfold guardUpdate mkIssue
  cases hid : c.issue_id with
  | none => simp only [hid]; split <;> split <;> split <;> split <;> split <;> split <;> simp_all
  | some s =>
    rw [hid] at h
    unfold idTruthy at h
    simp only [decide_eq_false_iff_not, not_not] at h
    subst h
    simp only [if_true, hid]
    split <;> split <;> split <;> split <;> split <;> split <;> simp_all

theorem updateFirstLinked_none_iff (c : Classification) (t : Nat) (l : List Issue) :
    updateFirstLinked c t l = none ↔ ∀ iss ∈ l, t ∉ iss.tickets := by
  induction l with
  | nil => simp [updateFirstLinked]
  | cons iss rest ih =>
    unfold updateFirstLinked
    by_cases hmem : t ∈ iss.tickets
    · simp [hmem]
    · simp only [hmem, if_false, Option.map_eq_none']
      rw [ih]
      constructor
      · intro h a ha
        rcases List.mem_cons.mp ha with rfl | hr
        · exact hmem
        · exact h a hr
      · intro h a ha
        exact h a (List.mem_cons_of_mem _ ha)

theorem updateFirstLinked_decomp {c : Classification} {t : Nat} {l l' : List Issue}
    (h : updateFirstLinked c t l = some l') :
    ∃ pre iss post, l = pre ++ iss :: post ∧ l' = pre ++ guardUpdate c iss :: post ∧
      t ∈ iss.tickets ∧ ∀ a ∈ pre, t ∉ a.tickets := by
  induction l generalizing l' with
  | nil => simp [updateFirstLinked] at h
  | cons x rest ih =>
    unfold updateFirstLinked at h
    by_cases hmem : t ∈ x.tickets
    · simp only [hmem, if_true, Option.some_inj] at h
      exact ⟨[], x, rest, by simp, by simp [h.symm], hmem, by simp⟩
    · simp only [hmem, if_false, Option.map_eq_some'] at h
      rcases h with ⟨r', hr', rfl⟩
      rcases ih hr' with ⟨pre, iss, post, hl, hl', hiss, hpre⟩
      refine ⟨x :: pre, iss, post, by simp [hl], by simp [hl'], hiss, ?_⟩
      intro a ha
      rcases List.mem_cons.mp ha with rfl | hp
      · exact hmem
      · exact hpre a hp

theorem updateFirstLinked_map_tickets {c : Classification} {t : Nat} {l l' : List Issue}
    (h : updateFirstLinked c t l = some l') :
    l'.map Issue.tickets = l.map Issue.tickets := by
  rcases updateFirstLinked_decomp h with ⟨pre, iss, post, rfl, rfl, -, -⟩
  simp [guardUpdate_tickets]

theorem updateFirstLinked_map_ids {c : Classification} (hf : idTruthy c.issue_id = false)
    {t : Nat} {l l' : List Issue} (h : updateFirstLinked c t l = some l') :
    l'.map Issue.issue_id = l.map Issue.issue_id := by
  rcases updateFirstLinked_decomp h with ⟨pre, iss, post, rfl, rfl, -, -⟩
  simp [guardUpdate_id_of_falsy hf]

theorem updateFirstLinked_again {c : Classification} {t : Nat} {l l' : List Issue}
    (h : updateFirstLinked c t l = some l') :
    updateFirstLinked c t l' = some l' := by
  induction l generalizing l' with
  | nil => simp [updateFirstLinked] at h
  | cons x rest ih =>
    unfold updateFirstLinked at h
    by_cases hmem : t ∈ x.tickets
    · simp only [hmem, if_true, Option.some_inj] at h
      subst h
      unfold updateFirstLinked
      have hmem' : t ∈ (guardUpdate c x).tickets := by
        rw [guardUpdate_tickets]; exact hmem
      simp [hmem', guardUpdate_idem]
    · simp only [hmem, if_false, Option.map_eq_some'] at h
      rcases h with ⟨r', hr', rfl⟩
      unfold updateFirstLinked
      simp [hmem, ih hr']

theorem updateFirstLinked_append_linked {c : Classification} {t : Nat} {l : List Issue}
    (hl : ∀ iss ∈ l, t ∉ iss.tickets) {x : Issue} (hx : t ∈ x.tickets) :
    updateFirstLinked c t (l ++ [x]) = some (l ++ [guardUpdate c x]) := by
  induction l with
  | nil => simp [updateFirstLinked, hx]
  | cons y rest ih =>
    have hy : t ∉ y.tickets := hl y (List.mem_cons_self _ _)
    have hrest : ∀ iss ∈ rest, t ∉ iss.tickets :=
      fun iss hiss => hl iss (List.mem_cons_of_mem _ hiss)
    rw [List.cons_append]
    unfold updateFirstLinked
    simp [hy, ih hrest]

/-! ### Lemmas: the case-3 identifier pass -/

theorem case3Update_id (c : Classification) (rid : String) (t : Nat) (iss : Issue) :
    (case3Update c rid t iss).issue_id = rid := rfl

theorem case3Update_idem (c : Classification) (rid : String) (t : Nat) (iss : Issue) :
    case3Update c rid t (case3Update c rid t iss) = case3Update c rid t iss := by
  unfold case3Update
  by_cases hmem : t ∈ iss.tickets
  · simp [hmem]
  · simp [hmem]

theorem case3Update_mkIssue (c : Classification) (rid : String) (t : Nat) :
    case3Update c rid t (mkIssue c rid [t]) = mkIssue c rid [t] := by
  unfold case3Update mkIssue
  simp

theorem updateFirstById_none_iff (c : Classification) (rid : String) (t : Nat)
    (l : List Issue) :
    updateFirstById c rid t l = none ↔ ∀ iss ∈ l, iss.issue_id ≠ rid := by
  induction l with
  | nil => simp [updateFirstById]
  | cons iss rest ih =>
    unfold updateFirstById
    by_cases hid : iss.issue_id = rid
    · simp [hid]
    · simp only [hid, if_false, Option.map_eq_none']
      rw [ih]
      constructor
      · intro h a ha
        rcases List.mem_cons.mp ha with rfl | hr
        · exact hid
        · exact h a hr
      · intro h a ha
        exact h a (List.mem_cons_of_mem _ ha)

theorem updateFirstById_decomp {c : Classification} {rid : String} {t : Nat}
    {l l' : List Issue} (h : updateFirstById c rid t l = some l') :
    ∃ pre iss post, l = pre ++ iss :: post ∧ l' = pre ++ case3Update c rid t iss :: post ∧
      iss.issue_id = rid ∧ ∀ a ∈ pre, a.issue_id ≠ rid := by
  induction l generalizing l' with
  | nil => simp [updateFirstById] at h
  | cons x rest ih =>
    unfold updateFirstById at h
    by_cases hid : x.issue_id = rid
    · simp only [hid, if_true, Option.some_inj] at h
      exact ⟨[], x, rest, by simp, by simp [h.symm], hid, by simp⟩
    · simp only [hid, if_false, Option.map_eq_some'] at h
      rcases h with ⟨r', hr', rfl⟩
      rcases ih hr' with ⟨pre, iss, post, hl, hl', hiss, hpre⟩
      refine ⟨x :: pre, iss, post, by simp [hl], by simp [hl'], hiss, ?_⟩
      intro a ha
      rcases List.mem_cons.mp ha with rfl | hp
      · exact hid
      · exact hpre a hp

theorem updateFirstById_map_ids {c : Classification} {rid : String} {t : Nat}
    {l l' : List Issue} (h : updateFirstById c rid t l = some l') :
    l'.map Issue.issue_id = l.map Issue.issue_id := by
  rcases updateFirstById_decomp h with ⟨pre, iss, post, rfl, rfl, hiss, -⟩
  simp [case3Update_id, hiss]

theorem updateFirstById_again {c : Classification} {rid : String} {t : Nat}
    {l l' : List Issue} (h : updateFirstById c rid t l = some l') :
    updateFirstById c rid t l' = some l' := by
  induction l generalizing l' with
  | nil => simp [updateFirstById] at h
  | cons x rest ih =>
    unfold updateFirstById at h
    by_cases hid : x.issue_id = rid
    · simp only [hid, if_true, Option.some_inj] at h
      subst h
      unfold updateFirstById
      simp [case3Update_id, case3Update_idem]
    · simp only [hid, if_false, Option.map_eq_some'] at h
      rcases h with ⟨r', hr', rfl⟩
      unfold updateFirstById
      simp [hid, ih hr']

theorem updateFirstById_append {c : Classification} {rid : String} {t : Nat} {l : List Issue}
    (hl : ∀ iss ∈ l, iss.issue_id ≠ rid) {x : Issue} (hx : x.issue_id = rid) :
    updateFirstById c rid t (l ++ [x]) = some (l ++ [case3Update c rid t x]) := by
  induction l with
  | nil => simp [updateFirstById, hx]
  | cons y rest ih =>
    have hy : y.issue_id ≠ rid := hl y (List.mem_cons_self _ _)
    have hrest : ∀ iss ∈ rest, iss.issue_id ≠ rid :=
      fun iss hiss => hl iss (List.mem_cons_of_mem _ hiss)
    rw [List.cons_append]
    unfold updateFirstById
    simp [hy, ih hrest]

/-! ### Lemmas: case analysis of `merge` -/

theorem idTruthy_some {rid : String} (hne : rid ≠ "") : idTruthy (some rid) = true := by
  simp [idTruthy, hne]

theorem idTruthy_true_elim {o : Option String} (h : idTruthy o = true) :
    ∃ rid, o = some rid ∧ rid ≠ "" := by
  cases o with
  | none => simp [idTruthy] at h
  | some s =>
    refine ⟨s, rfl, ?_⟩
    simpa [idTruthy] using h

theorem merge_falsy_guard {c : Classification} (hf : idTruthy c.issue_id = false)
    {t : Nat} {issues l : List Issue} (hU : updateFirstLinked c t issues = some l) :
    merge issues c t = l := by
  unfold merge
  simp [hf, hU]

theorem merge_falsy_new {c : Classification} (hf : idTruthy c.issue_id = false)
    {t : Nat} {issues : List Issue} (hU : updateFirstLinked c t issues = none) :
    merge issues c t = issues ++ [mkIssue c (next_issue_id issues) [t]] := by
  unfold merge
  simp [hf, hU]

theorem merge_lowconf_guard {c : Classification} {rid : String}
    (hrid : c.issue_id = some rid) (hne : rid ≠ "")
    (hconf : c.confidence < mkRat 9 10)
    {t : Nat} {issues l : List Issue} (hU : updateFirstLinked c t issues = some l) :
    merge issues c t = l := by
  unfold merge
  rw [hrid]
  simp [idTruthy_some hne, hconf, hU]

theorem merge_lowconf_new {c : Classification} {rid : String}
    (hrid : c.issue_id = some rid) (hne : rid ≠ "")
    (hconf : c.confidence < mkRat 9 10)
    {t : Nat} {issues : List Issue} (hU : updateFirstLinked c t issues = none) :
    merge issues c t
      = issues.insertIdx (find_branch_insert_index issues rid)
          (mkIssue c (next_branch_id issues rid) [t]) := by
  unfold merge
  rw [hrid]
  simp [idTruthy_some hne, hconf, hU]

theorem merge_hiconf_upd {c : Classification} {rid : String}
    (hrid : c.issue_id = some rid) (hne : rid ≠ "")
    (hconf : ¬ c.confidence < mkRat 9 10)
    {t : Nat} {issues l : List Issue} (hU : updateFirstById c rid t issues = some l) :
    merge issues c t = l := by
  unfold merge
  rw [hrid]
  simp [idTruthy_some hne, hconf, hU]

theorem merge_hiconf_new {c : Classification} {rid : String}
    (hrid : c.issue_id = some rid) (hne : rid ≠ "")
    (hconf : ¬ c.confidence < mkRat 9 10)
    {t : Nat} {issues : List Issue} (hU : updateFirstById c rid t issues = none) :
    merge issues c t = issues ++ [mkIssue c rid [t]] := by
  unfold merge
  rw [hrid]
  simp [idTruthy_some hne, hconf, hU]

/-- Core of the amended idempotence result: remerging the same
classification and ticket is the identity on the already-merged catalog
whenever the classification's `issue_id` is falsy (case 1) or its
confidence clears the branch threshold (case 3). -/
theorem merge_idem_aux (issues : List Issue) (c : Classification) (t : Nat)
    (h : idTruthy c.issue_id = false ∨ mkRat 9 10 ≤ c.confidence) :
    merge (merge issues c t) c t = merge issues c t := by
  by_cases hf : idTruthy c.issue_id = false
  · cases hU : updateFirstLinked c t issues with
    | some l =>
      rw [merge_falsy_guard hf hU, merge_falsy_guard hf (updateFirstLinked_again hU)]
    | none =>
      rw [merge_falsy_new hf hU]
      have hall : ∀ iss ∈ issues, t ∉ iss.tickets :=
        (updateFirstLinked_none_iff c t issues).mp hU
      have hx : t ∈ (mkIssue c (next_issue_id issues) [t]).tickets := by simp [mkIssue]
      have hU2 := updateFirstLinked_append_linked (c := c) hall hx
      rw [merge_falsy_guard hf hU2, guardUpdate_mkIssue hf]
  · have ht : idTruthy c.issue_id = true := by
      cases hv : idTruthy c.issue_id with
      | false => exact absurd hv hf
      | true => rfl
    rcases idTruthy_true_elim ht with ⟨rid, hrid, hne⟩
    have hc : mkRat 9 10 ≤ c.confidence := by
      rcases h with h | h
      · exact absurd h hf
      · exact h
    have hconf : ¬ c.confidence < mkRat 9 10 := not_lt.mpr hc
    cases hU : updateFirstById c rid t issues with
    | some l =>
      rw [merge_hiconf_upd hrid hne hconf hU,
        merge_hiconf_upd hrid hne hconf (updateFirstById_again hU)]
    | none =>
      rw [merge_hiconf_new hrid hne hconf hU]
      have hall : ∀ iss ∈ issues, iss.issue_id ≠ rid :=
        (updateFirstById_none_iff c rid t issues).mp hU
      have hU2 := updateFirstById_append (c := c) (t := t) hall
        (x := mkIssue c rid [t]) rfl
      rw [merge_hiconf_upd hrid hne hconf hU2, case3Update_mkIssue]

/-! ### Lemmas: preservation of the catalog invariants -/

theorem listDisj_symm {a b : List Nat} (h : ListDisj a b) : ListDisj b a :=
  fun s hb ha => h s ha hb

theorem tickets_disjoint_of_map_eq {l l' : List Issue}
    (h : l'.map Issue.tickets = l.map Issue.tickets)
    (hd : TicketsDisjoint l) : TicketsDisjoint l' := by
  unfold TicketsDisjoint at hd ⊢
  rw [h]
  exact hd

theorem pairwise_update_middle {t : Nat} {pre post : List (List Nat)} {tk tk' : List Nat}
    (hP : List.Pairwise ListDisj (pre ++ tk :: post))
    (hsub : ∀ s ∈ tk', s ∈ tk ∨ s = t)
    (hpre : ∀ a ∈ pre, t ∉ a) (hpost : ∀ a ∈ post, t ∉ a) :
    List.Pairwise ListDisj (pre ++ tk' :: post) := by
  rw [List.pairwise_append] at hP ⊢
  obtain ⟨h1, h2, h3⟩ := hP
  rw [List.pairwise_cons] at h2 ⊢
  obtain ⟨h2a, h2b⟩ := h2
  refine ⟨h1, ⟨?_, h2b⟩, ?_⟩
  · intro a ha s hs
    rcases hsub s hs with hstk | rfl
    · exact h2a a ha s hstk
    · exact hpost a ha
  · intro a ha b hb
    rcases List.mem_cons.mp hb with rfl | hbp
    · intro s hs hstk'
      rcases hsub s hstk' with hstk | rfl
      · exact h3 a ha tk (List.mem_cons_self _ _) s hs hstk
      · exact hpre a ha hs
    · exact h3 a ha b (List.mem_cons_of_mem _ hbp)

/-- Appending an issue whose only ticket is the fresh `t` preserves
pairwise disjointness. -/
theorem tickets_disjoint_append {issues : List Issue} (hd : TicketsDisjoint issues)
    {t : Nat} (hall : ∀ iss ∈ issues, t ∉ iss.tickets) {x : Issue}
    (hx : x.tickets = [t]) : TicketsDisjoint (issues ++ [x]) := by
  unfold TicketsDisjoint at hd ⊢
  rw [List.map_append, List.pairwise_append]
  refine ⟨hd, by simp, ?_⟩
  intro a ha b hb s hs hsb
  simp only [List.map_cons, List.map_nil, List.mem_singleton] at hb
  rw [hb, hx] at hsb
  rw [List.mem_singleton] at hsb
  subst hsb
  rcases List.mem_map.mp ha with ⟨iss, hiss, rfl⟩
  exact hall iss hiss hs

/-- The amended C1 preservation: a merge whose classification has a
falsy `issue_id`, or confidence below the branch threshold, or whose
ticket is not yet linked anywhere, preserves pairwise disjointness of
the `tickets` lists. -/
theorem merge_preserves_tickets_disjoint (issues : List Issue) (c : Classification) (t : Nat)
    (h : idTruthy c.issue_id = false ∨ c.confidence < mkRat 9 10 ∨
      ∀ iss ∈ issues, t ∉ iss.tickets)
    (hd : TicketsDisjoint issues) : TicketsDisjoint (merge issues c t) := by
  by_cases hf : idTruthy c.issue_id = false
  · cases hU : updateFirstLinked c t issues with
    | some l =>
      rw [merge_falsy_guard hf hU]
      exact tickets_disjoint_of_map_eq (updateFirstLinked_map_tickets hU) hd
    | none =>
      rw [merge_falsy_new hf hU]
      exact tickets_disjoint_append hd ((updateFirstLinked_none_iff c t issues).mp hU) rfl
  · have ht : idTruthy c.issue_id = true := by
      cases hv : idTruthy c.issue_id with
      | false => exact absurd hv hf
      | true => rfl
    rcases idTruthy_true_elim ht with ⟨rid, hrid, hne⟩
    by_cases hconf : c.confidence < mkRat 9 10
    · cases hU : updateFirstLinked c t issues with
      | some l =>
        rw [merge_lowconf_guard hrid hne hconf hU]
        exact tickets_disjoint_of_map_eq (updateFirstLinked_map_tickets hU) hd
      | none =>
        rw [merge_lowconf_new hrid hne hconf hU]
        have hall : ∀ iss ∈ issues, t ∉ iss.tickets :=
          (updateFirstLinked_none_iff c t issues).mp hU
        have hperm := insertIdx_perm (mkIssue c (next_branch_id issues rid) [t])
          (find_branch_insert_index issues rid) issues
          (find_branch_insert_index_le issues rid)
        unfold TicketsDisjoint
        rw [(hperm.map Issue.tickets).pairwise_iff (fun hab => listDisj_symm hab)]
        rw [List.map_cons, List.pairwise_cons]
        refine ⟨?_, hd⟩
        intro a ha s hs hsa
        have : s = t := by simpa [mkIssue] using hs
        subst this
        rcases List.mem_map.mp ha with ⟨iss, hiss, rfl⟩
        exact hall iss hiss hsa
    · have hall : ∀ iss ∈ issues, t ∉ iss.tickets := by
        rcases h with h | h | h
        · exact absurd h hf
        · exact absurd h hconf
        · exact h
      cases hU : updateFirstById c rid t issues with
      | some l =>
        rw [merge_hiconf_upd hrid hne hconf hU]
        rcases updateFirstById_decomp hU with ⟨pre, iss, post, hiss, rfl, -, -⟩
        subst hiss
        unfold TicketsDisjoint at hd ⊢
        rw [List.map_append, List.map_cons] at hd ⊢
        refine pairwise_update_middle (t := t) hd ?_ ?_ ?_
        · intro s hs
          unfold case3Update at hs
          by_cases hmem : t ∈ iss.tickets
          · simp only [hmem, if_true] at hs
            exact Or.inl hs
          · simp only [hmem, if_false] at hs
            rcases List.mem_append.mp hs with hstk | hst
            · exact Or.inl hstk
            · exact Or.inr (List.mem_singleton.mp hst)
        · intro a ha
          rcases List.mem_map.mp ha with ⟨b, hb, rfl⟩
          exact hall b (by simp [hb])
        · intro a ha
          rcases List.mem_map.mp ha with ⟨b, hb, rfl⟩
          exact hall b (by simp [hb])
      | none =>
        rw [merge_hiconf_new hrid hne hconf hU]
        exact tickets_disjoint_append hd hall rfl

/-- The amended C4 preservation: a merge whose classification has a
falsy `issue_id`, or confidence at or above the branch threshold, or
whose ticket is not yet linked anywhere, preserves uniqueness of
`issue_id` across the catalog. -/
theorem merge_preserves_ids_unique (issues : List Issue) (c : Classification) (t : Nat)
    (h : idTruthy c.issue_id = false ∨ mkRat 9 10 ≤ c.confidence ∨
      ∀ iss ∈ issues, t ∉ iss.tickets)
    (hd : IdsUnique issues) : IdsUnique (merge issues c t) := by
  by_cases hf : idTruthy c.issue_id = false
  · cases hU : updateFirstLinked c t issues with
    | some l =>
      rw [merge_falsy_guard hf hU]
      unfold IdsUnique at hd ⊢
      rw [updateFirstLinked_map_ids hf hU]
      exact hd
    | none =>
      rw [merge_falsy_new hf hU]
      unfold IdsUnique at hd ⊢
      rw [List.map_append, List.nodup_append]
      refine ⟨hd, by simp, ?_⟩
      intro a ha hb
      simp only [List.map_cons, List.map_nil, List.mem_singleton] at hb
      rcases List.mem_map.mp ha with ⟨iss, hiss, rfl⟩
      exact next_issue_id_fresh issues iss hiss (by simpa [mkIssue] using hb)
  · have ht : idTruthy c.issue_id = true := by
      cases hv : idTruthy c.issue_id with
      | false => exact absurd hv hf
      | true => rfl
    rcases idTruthy_true_elim ht with ⟨rid, hrid, hne⟩
    by_cases hconf : c.confidence < mkRat 9 10
    · have hall : ∀ iss ∈ issues, t ∉ iss.tickets := by
        rcases h with h | h | h
        · exact absurd h hf
        · exact absurd (not_lt.mpr h) (by simpa using hconf)
        · exact h
      have hU : updateFirstLinked c t issues = none :=
        (updateFirstLinked_none_iff c t issues).mpr hall
      rw [merge_lowconf_new hrid hne hconf hU]
      have hperm := insertIdx_perm (mkIssue c (next_branch_id issues rid) [t])
        (find_branch_insert_index issues rid) issues
        (find_branch_insert_index_le issues rid)
      unfold IdsUnique at hd ⊢
      rw [(hperm.map Issue.issue_id).nodup_iff, List.map_cons, List.nodup_cons]
      refine ⟨?_, hd⟩
      intro hmem
      rcases List.mem_map.mp hmem with ⟨iss, hiss, hid⟩
      exact next_branch_id_fresh issues rid iss hiss (by simpa [mkIssue] using hid)
    · cases hU : updateFirstById c rid t issues with
      | some l =>
        rw [merge_hiconf_upd hrid hne hconf hU]
        unfold IdsUnique at hd ⊢
        rw [updateFirstById_map_ids hU]
        exact hd
      | none =>
        rw [merge_hiconf_new hrid hne hconf hU]
        have hall : ∀ iss ∈ issues, iss.issue_id ≠ rid :=
          (updateFirstById_none_iff c rid t issues).mp hU
        unfold IdsUnique at hd ⊢
        rw [List.map_append, List.nodup_append]
        refine ⟨hd, by simp, ?_⟩
        intro a ha hb
        simp only [List.map_cons, List.map_nil, List.mem_singleton] at hb
        rcases List.mem_map.mp ha with ⟨iss, hiss, rfl⟩
        exact hall iss hiss (by simpa [mkIssue] using hb)

/-! ### Lemmas: substring containment and auto-ignore -/

theorem hasInfix_iff (n : List Char) : ∀ hay, hasInfix n hay = true ↔ n <:+: hay := by
  intro hay
  induction hay with
  | nil =>
    constructor
    · intro h
      have hn : n = [] := by simpa [hasInfix, List.isEmpty_iff] using h
      subst hn
      exact ⟨[], [], rfl⟩
    · rintro ⟨s, t, hst⟩
      have h1 := List.append_eq_nil.mp hst
      have h2 := List.append_eq_nil.mp h1.1
      simp [hasInfix, h2.2]
  | cons c rest ih =>
    rw [show hasInfix n (c :: rest) = (n.isPrefixOf (c :: rest) || hasInfix n rest) from rfl]
    constructor
    · intro h
      have h' : n.isPrefixOf (c :: rest) = true ∨ hasInfix n rest = true := by
        simpa using h
      rcases h' with hp | hi
      · rcases List.isPrefixOf_iff_prefix.mp hp with ⟨t', ht'⟩
        exact ⟨[], t', by simpa using ht'⟩
      · rcases ih.mp hi with ⟨s, t, hst⟩
        exact ⟨c :: s, t, by rw [← hst]; simp⟩
    · rintro ⟨s, t, hst⟩
      cases s with
      | nil =>
        have hp : n.isPrefixOf (c :: rest) = true :=
          List.isPrefixOf_iff_prefix.mpr ⟨t, by simpa using hst⟩
        simp [hp]
      | cons c' s' =>
        simp only [List.cons_append] at hst
        have htl : s' ++ n ++ t = rest := ((List.cons.injEq _ _ _ _).mp hst).2
        have hi : hasInfix n rest = true := ih.mpr ⟨s', t, htl⟩
        simp [hi]

theorem should_auto_ignore_iff (messages : List Message) :
    should_auto_ignore messages = true ↔
      ∃ m, messages.getLast? = some m ∧ m.speaker = "agent" ∧
        ∃ p ∈ AUTO_IGNORE_PHRASES, p.data <:+: (normalize_apostrophes m.text).data := by
  unfold should_auto_ignore
  cases hlast : messages.getLast? with
  | none => simp
  | some m =>
    dsimp only
    by_cases hsp : m.speaker = "agent"
    · rw [if_neg (by simp [hsp])]
      rw [List.any_eq_true]
      constructor
      · rintro ⟨p, hp, hinf⟩
        exact ⟨m, rfl, hsp, p, hp, (hasInfix_iff _ _).mp hinf⟩
      · rintro ⟨m', hm', hsp', p, hp, hinf⟩
        cases Option.some_inj.mp hm'
        exact ⟨p, hp, (hasInfix_iff _ _).mpr hinf⟩
    · rw [if_pos hsp]
      constructor
      · intro h
        exact absurd h (by simp)
      · rintro ⟨m', hm', hsp', -⟩
        cases Option.some_inj.mp hm'
        exact absurd hsp' hsp

/-! ### Lemmas: the auto-ignore backfill -/

theorem autoIgnoreStep_ignored {c : ConvRec} (h : c.ignore = true) :
    autoIgnoreStep c = (c, false) := by
  simp [autoIgnoreStep, h]

theorem autoIgnoreStep_cases (c : ConvRec) :
    (autoIgnoreStep c).1 = c ∨
      (c.ignore = false ∧ should_auto_ignore c.messages = true ∧
        (autoIgnoreStep c).1 = { c with ignore := true }) := by
  unfold autoIgnoreStep
  by_cases h : c.ignore
  · simp [h]
  · by_cases hp : should_auto_ignore c.messages
    · right
      refine ⟨by simpa using h, hp, ?_⟩
      simp [h, hp]
    · left
      simp [h, hp]

theorem autoIgnoreStep_snd_after (c : ConvRec) :
    (autoIgnoreStep (autoIgnoreStep c).1).2 = false := by
  unfold autoIgnoreStep
  by_cases h : c.ignore
  · simp [h]
  · by_cases hp : should_auto_ignore c.messages
    · simp [h, hp]
    · simp [h, hp]

/-! ### Lemmas: the case-3 middle decomposition -/

theorem updateFirstById_middle {c : Classification} {rid : String} {t : Nat}
    {pre post : List Issue} {x : Issue}
    (hpre : ∀ a ∈ pre, a.issue_id ≠ rid) (hx : x.issue_id = rid) :
    updateFirstById c rid t (pre ++ x :: post)
      = some (pre ++ case3Update c rid t x :: post) := by
  induction pre with
  | nil => simp [updateFirstById, hx]
  | cons y rest ih =>
    have hy : y.issue_id ≠ rid := hpre y (List.mem_cons_self _ _)
    have hrest : ∀ a ∈ rest, a.issue_id ≠ rid :=
      fun a ha => hpre a (List.mem_cons_of_mem _ ha)
    rw [List.cons_append]
    unfold updateFirstById
    simp [hy, ih hrest]

/-! ### Claim theorems -/

/-- C1, counterexample: the claim asserts ticket uniqueness after ANY
sequence of merges, but a high-confidence (0.95) merge naming a
different issue for a ticket already linked elsewhere leaves the ticket
in two `tickets` lists: starting from the disjoint catalog
`[A {tickets := [5]}, B {tickets := []}]`, merging
`{issue_id := B, confidence := 0.95}` for ticket `5` yields ticket
lists `[[5], [5]]`. -/
theorem c1_counterexample :
    TicketsDisjoint [sampleIssue "A" [5], sampleIssue "B" []] ∧
    ¬ TicketsDisjoint
        (merge [sampleIssue "A" [5], sampleIssue "B" []] (highConfTo "B") 5) ∧
    (merge [sampleIssue "A" [5], sampleIssue "B" []] (highConfTo "B") 5).map Issue.tickets
      = [[5], [5]] := by
  refine ⟨by decide, by decide, by decide⟩

/-- C1 (amended): ticket uniqueness (pairwise-disjoint `tickets` lists)
is preserved by every merge whose classification has a falsy `issue_id`,
or confidence below `0.9`, or whose ticket is not yet linked to any
issue — and hence by every sequence of merges each of whose calls has a
falsy `issue_id` or confidence below `0.9`.  The invariant does NOT
survive a high-confidence merge that names a different issue for an
already-linked ticket (see the counterexample). -/
theorem c1_amended :
    (∀ (issues : List Issue) (c : Classification) (t : Nat),
      (idTruthy c.issue_id = false ∨ c.confidence < mkRat 9 10 ∨
        ∀ iss ∈ issues, t ∉ iss.tickets) →
      TicketsDisjoint issues → TicketsDisjoint (merge issues c t)) ∧
    (∀ (issues : List Issue) (reqs : List (Classification × Nat)),
      (∀ r ∈ reqs,
        idTruthy (Prod.fst r).issue_id = false ∨ (Prod.fst r).confidence < mkRat 9 10) →
      TicketsDisjoint issues → TicketsDisjoint (mergeAll issues reqs)) := by
  refine ⟨merge_preserves_tickets_disjoint, ?_⟩
  intro issues reqs
  induction reqs generalizing issues with
  | nil =>
    intro _ hd
    simpa [mergeAll] using hd
  | cons r rest ih =>
    intro hall hd
    have h1 : TicketsDisjoint (merge issues r.1 r.2) := by
      apply merge_preserves_tickets_disjoint issues r.1 r.2 _ hd
      rcases hall r (List.mem_cons_self _ _) with h | h
      · exact Or.inl h
      · exact Or.inr (Or.inl h)
    have h2 := ih (merge issues r.1 r.2) (fun a ha => hall a (List.mem_cons_of_mem _ ha)) h1
    simpa [mergeAll] using h2

/-- C1, witness: the amended theorem applied to a concrete low-confidence
merge and to a concrete two-request sequence. -/
theorem c1_witness :
    TicketsDisjoint (merge [sampleIssue "A" [5]] (lowConfTo "B") 9) ∧
    TicketsDisjoint
      (mergeAll [sampleIssue "A" [5]] [(lowConfTo "A", 9), (lowConfTo "A", 11)]) := by
  constructor
  · exact c1_amended.1 [sampleIssue "A" [5]] (lowConfTo "B") 9
      (Or.inr (Or.inl (by decide))) (by decide)
  · refine c1_amended.2 [sampleIssue "A" [5]] [(lowConfTo "A", 9), (lowConfTo "A", 11)]
      ?_ (by decide)
    intro r hr
    rcases List.mem_cons.mp hr with rfl | hr
    · exact Or.inr (by decide)
    · rcases List.mem_cons.mp hr with rfl | hr
      · exact Or.inr (by decide)
      · simp at hr

/-- C2, counterexample: re-merging the identical low-confidence
classification for the same ticket is NOT idempotent.  Merging
`{issue_id := A, confidence := 0.5}` for ticket `7` into the empty
catalog creates branch `A-1`; the second identical merge hits the
ticket-already-linked guard, which overwrites the truthy `issue_id`
field `A` onto the branch entry, renaming it from `A-1` to `A`. -/
theorem c2_counterexample :
    merge (merge [] (lowConfTo "A") 7) (lowConfTo "A") 7 ≠ merge [] (lowConfTo "A") 7 ∧
    (merge [] (lowConfTo "A") 7).map Issue.issue_id = ["A-1"] ∧
    (merge (merge [] (lowConfTo "A") 7) (lowConfTo "A") 7).map Issue.issue_id = ["A"] := by
  refine ⟨by decide, by decide, by decide⟩

/-- C2 (amended): merging the same `(classification, ticket_id)` pair a
second time leaves the catalog unchanged whenever the classification's
`issue_id` is falsy (decision case 1) or its confidence is at or above
`0.9` (decision case 3), in both sub-branches of each case; in the
low-confidence branch case the second merge hits the
ticket-already-linked guard and rewrites the branch entry's `issue_id`
to the classification's parent reference, so idempotence fails there
(see the counterexample). -/
theorem c2_amended (issues : List Issue) (c : Classification) (t : Nat)
    (h : idTruthy c.issue_id = false ∨ mkRat 9 10 ≤ c.confidence) :
    merge (merge issues c t) c t = merge issues c t :=
  merge_idem_aux issues c t h

/-- C2, witness: the amended idempotence at a concrete high-confidence
merge into the empty catalog. -/
theorem c2_witness :
    merge (merge [] (highConfTo "X") 3) (highConfTo "X") 3 = merge [] (highConfTo "X") 3 :=
  c2_amended [] (highConfTo "X") 3 (Or.inr (by decide))

/-- C3, counterexample: root allocation does NOT exclude branch-form
identifiers.  With the catalog containing only the branch
`ISSUE-0001-5`, a no-identifier merge allocates `ISSUE-0006` (the
branch's trailing segment `5` feeds the maximum), whereas the claim's
root-only rule (`spec_next_root_id`) would allocate `ISSUE-0001`. -/
theorem c3_counterexample :
    merge [sampleIssue "ISSUE-0001-5" []] (fallbackClassification "raw") 7
      = [sampleIssue "ISSUE-0001-5" [],
         mkIssue (fallbackClassification "raw") "ISSUE-0006" [7]] ∧
    spec_next_root_id [sampleIssue "ISSUE-0001-5" []] = "ISSUE-0001" ∧
    ("ISSUE-0006" : String) ≠ "ISSUE-0001" := by
  refine ⟨by decide, by decide, by decide⟩

/-- C3 (amended): when merge allocates a new root identifier (falsy
`issue_id`, ticket not linked anywhere), the new identifier is
`ISSUE-%04d` with numeric suffix one greater than the maximum over the
trailing dash-segments of ALL existing identifiers — branch-form
identifiers included, since the scan parses
`issue_id.split("-")[-1]` of every entry. -/
theorem c3_amended (issues : List Issue) (c : Classification) (t : Nat)
    (hf : idTruthy c.issue_id = false) (hnl : ∀ iss ∈ issues, t ∉ iss.tickets) :
    merge issues c t
      = issues ++
        [mkIssue c (String.mk ("ISSUE-".data ++ pad4 (maxTrailingNum issues + 1))) [t]] := by
  have hU := (updateFirstLinked_none_iff c t issues).mpr hnl
  rw [merge_falsy_new hf hU, next_issue_id_eq]

/-- C3, witness: the amended allocation rule at a concrete catalog, with
the allocated identifier evaluated. -/
theorem c3_witness :
    merge [sampleIssue "ISSUE-0003" [1]] (fallbackClassification "x") 2
      = [sampleIssue "ISSUE-0003" [1]] ++
        [mkIssue (fallbackClassification "x")
          (String.mk ("ISSUE-".data ++
            pad4 (maxTrailingNum [sampleIssue "ISSUE-0003" [1]] + 1))) [2]] ∧
    String.mk ("ISSUE-".data ++ pad4 (maxTrailingNum [sampleIssue "ISSUE-0003" [1]] + 1))
      = "ISSUE-0004" := by
  refine ⟨c3_amended _ _ _ (by decide) (by decide), by decide⟩

/-- C4, counterexample: `issue_id` uniqueness is NOT preserved by every
merge.  With the catalog `[A, A-1 {tickets := [5]}]`, the
low-confidence merge `{issue_id := A, confidence := 0.5}` for the
already-linked ticket `5` hits the reprocessing guard, which overwrites
the truthy `issue_id` field `A` onto entry `A-1`, leaving two entries
named `A`. -/
theorem c4_counterexample :
    IdsUnique [sampleIssue "A" [], sampleIssue "A-1" [5]] ∧
    ¬ IdsUnique (merge [sampleIssue "A" [], sampleIssue "A-1" [5]] (lowConfTo "A") 5) ∧
    (merge [sampleIssue "A" [], sampleIssue "A-1" [5]] (lowConfTo "A") 5).map Issue.issue_id
      = ["A", "A"] := by
  refine ⟨by decide, by decide, by decide⟩

/-- C4 (amended): `issue_id` uniqueness is preserved by every merge
whose classification has a falsy `issue_id`, or confidence at or above
`0.9`, or whose ticket is not yet linked to any issue.  The remaining
path — the low-confidence ticket-already-linked guard with a truthy
`issue_id` — overwrites the linked entry's identifier with the
classification's parent reference and can duplicate an existing
identifier (see the counterexample). -/
theorem c4_amended (issues : List Issue) (c : Classification) (t : Nat)
    (h : idTruthy c.issue_id = false ∨ mkRat 9 10 ≤ c.confidence ∨
      ∀ iss ∈ issues, t ∉ iss.tickets)
    (hd : IdsUnique issues) : IdsUnique (merge issues c t) :=
  merge_preserves_ids_unique issues c t h hd

/-- C4, witness: the amended preservation at a concrete high-confidence
merge updating an existing entry. -/
theorem c4_witness :
    IdsUnique (merge [sampleIssue "A" [3]] (highConfTo "A") 3) :=
  c4_amended [sampleIssue "A" [3]] (highConfTo "A") 3 (Or.inr (Or.inl (by decide)))
    (by decide)

/-- C5: for a low-confidence classification naming parent `P`, with the
ticket not linked anywhere, merge inserts a single new entry whose
identifier is `P-<n>` with `n` one greater than the maximum integer
first segment after the prefix `P-` among existing identifiers
(`maxBranchSeg`, `0` when no branches exist, so `n = 1`), whose
`tickets` is `[t]`, at the position immediately after the last catalog
entry that is `P` itself or starts with `P-` (`lastRelated`), or at the
catalog end when no such entry exists. -/
theorem c5_branch_creation (issues : List Issue) (c : Classification) (P : String) (t : Nat)
    (hrid : c.issue_id = some P) (hne : P ≠ "") (hconf : c.confidence < mkRat 9 10)
    (hnl : ∀ iss ∈ issues, t ∉ iss.tickets) :
    merge issues c t
      = issues.insertIdx
          (match lastRelated P issues with
            | some j => j + 1
            | none => issues.length)
          (mkIssue c (String.mk (P.data ++ dash :: natToDec (maxBranchSeg issues P + 1)))
            [t]) := by
  have hU : updateFirstLinked c t issues = none :=
    (updateFirstLinked_none_iff c t issues).mpr hnl
  rw [merge_lowconf_new hrid hne hconf hU, next_branch_id_eq, find_branch_insert_index_eq]

/-- C5, witness: the specification's concrete example — on catalog
`[ISSUE-0001, ISSUE-0002]`, merging `{issue_id := ISSUE-0001,
confidence := 0.5}` for ticket `7` creates `ISSUE-0001-1` positioned
between `ISSUE-0001` and `ISSUE-0002`. -/
theorem c5_witness :
    merge exampleCatalog (lowConfTo "ISSUE-0001") 7
      = exampleCatalog.insertIdx
          (match lastRelated "ISSUE-0001" exampleCatalog with
            | some j => j + 1
            | none => exampleCatalog.length)
          (mkIssue (lowConfTo "ISSUE-0001")
            (String.mk (("ISSUE-0001" : String).data ++ dash ::
              natToDec (maxBranchSeg exampleCatalog "ISSUE-0001" + 1))) [7]) ∧
    merge exampleCatalog (lowConfTo "ISSUE-0001") 7
      = [sampleIssue "ISSUE-0001" [1],
         mkIssue (lowConfTo "ISSUE-0001") "ISSUE-0001-1" [7],
         sampleIssue "ISSUE-0002" [2]] := by
  refine ⟨c5_branch_creation exampleCatalog (lowConfTo "ISSUE-0001") "ISSUE-0001" 7
    (by decide) (by decide) (by decide) (by decide), by decide⟩

/-- C6: for a classification naming identifier `rid` at confidence at or
above `0.9`: if the catalog decomposes around the first entry carrying
exactly `rid`, merge replaces that entry by one carrying the
classification's values in every field except `tickets`, with `t`
appended to `tickets` exactly when not already present, leaving all
other entries unchanged; if no entry carries `rid`, merge appends a new
entry at the end keeping the classifier-supplied identifier verbatim
with `tickets = [t]`. -/
theorem c6_high_confidence (issues : List Issue) (c : Classification) (rid : String) (t : Nat)
    (hrid : c.issue_id = some rid) (hne : rid ≠ "") (hconf : mkRat 9 10 ≤ c.confidence) :
    (∀ pre iss post, issues = pre ++ iss :: post → iss.issue_id = rid →
      (∀ a ∈ pre, a.issue_id ≠ rid) →
      merge issues c t
        = pre ++
          { issue_id := rid
            category := c.category
            short_description := c.short_description
            keywords := c.keywords
            root_cause := c.root_cause
            resolution_steps := c.resolution_steps
            confidence := c.confidence
            notes := c.notes
            tickets := if t ∈ iss.tickets then iss.tickets else iss.tickets ++ [t] } :: post) ∧
    ((∀ iss ∈ issues, iss.issue_id ≠ rid) →
      merge issues c t = issues ++ [mkIssue c rid [t]]) := by
  have hconf' : ¬ c.confidence < mkRat 9 10 := not_lt.mpr hconf
  constructor
  · intro pre iss post hsplit hiss hpre
    subst hsplit
    exact merge_hiconf_upd hrid hne hconf' (updateFirstById_middle hpre hiss)
  · intro hall
    exact merge_hiconf_new hrid hne hconf'
      ((updateFirstById_none_iff c rid t issues).mpr hall)

/-- C6, witness: both branches at concrete inputs — updating
`ISSUE-0001 {tickets := [10]}` with ticket `20` (fields overwritten,
ticket appended), and the hallucinated-identifier fallback appending
`GHOST` verbatim. -/
theorem c6_witness :
    merge [sampleIssue "ISSUE-0001" [10]] (highConfTo "ISSUE-0001") 20
      = [] ++
        { issue_id := "ISSUE-0001"
          category := (highConfTo "ISSUE-0001").category
          short_description := (highConfTo "ISSUE-0001").short_description
          keywords := (highConfTo "ISSUE-0001").keywords
          root_cause := (highConfTo "ISSUE-0001").root_cause
          resolution_steps := (highConfTo "ISSUE-0001").resolution_steps
          confidence := (highConfTo "ISSUE-0001").confidence
          notes := (highConfTo "ISSUE-0001").notes
          tickets := if 20 ∈ (sampleIssue "ISSUE-0001" [10]).tickets
            then (sampleIssue "ISSUE-0001" [10]).tickets
            else (sampleIssue "ISSUE-0001" [10]).tickets ++ [20] } :: [] ∧
    merge [] (highConfTo "GHOST") 4 = [] ++ [mkIssue (highConfTo "GHOST") "GHOST" [4]] := by
  constructor
  · exact (c6_high_confidence [sampleIssue "ISSUE-0001" [10]] (highConfTo "ISSUE-0001")
      "ISSUE-0001" 20 (by decide) (by decide) (by decide)).1
      [] (sampleIssue "ISSUE-0001" [10]) [] rfl (by decide) (by simp)
  · exact (c6_high_confidence [] (highConfTo "GHOST") "GHOST" 4
      (by decide) (by decide) (by decide)).2 (by simp)

/-- C7, counterexample: the claim requires an EXACT match against a
configured phrase, but the source tests substring containment: an
agent-final message that strictly contains the merge-notice phrase is
auto-ignored by `should_auto_ignore` while the claim's exact-match rule
(`spec_auto_ignore_exact`) rejects it. -/
theorem c7_counterexample :
    should_auto_ignore
        [{ speaker := "agent", text := "Hi. This ticket is closed and merged into another." }]
      = true ∧
    spec_auto_ignore_exact
        [{ speaker := "agent", text := "Hi. This ticket is closed and merged into another." }]
      = false := by
  refine ⟨by decide, by decide⟩

/-- C7 (amended): `should_auto_ignore` returns `true` exactly for those
message lists whose last message's speaker is `agent` and whose last
message's apostrophe-normalized text CONTAINS a configured auto-ignore
phrase as a substring (not necessarily equalling it); for every other
message list — empty lists and lists ending in a non-agent message
included — it returns `false`. -/
theorem c7_amended (messages : List Message) :
    should_auto_ignore messages = true ↔
      ∃ m, messages.getLast? = some m ∧ m.speaker = "agent" ∧
        ∃ p ∈ AUTO_IGNORE_PHRASES, p.data <:+: (normalize_apostrophes m.text).data :=
  should_auto_ignore_iff messages

/-- C8: whenever the external JSON parse of the raw classifier response
fails, the adapter — a total function, so no exception can escape —
hands the merge engine exactly the synthetic record `{issue_id := none,
category := "unknown", keywords := [], root_cause := "",
resolution_steps := [], confidence := 0, notes := <raw text>}`. -/
theorem c8_parse_fallback (parse : String → Option Classification) (raw : String)
    (hfail : parse raw = none) (issues : List Issue) (t : Nat) :
    process_conversation parse issues raw t = merge issues (fallbackClassification raw) t ∧
    (fallbackClassification raw).issue_id = none ∧
    (fallbackClassification raw).category = "unknown" ∧
    (fallbackClassification raw).keywords = [] ∧
    (fallbackClassification raw).root_cause = "" ∧
    (fallbackClassification raw).resolution_steps = [] ∧
    (fallbackClassification raw).confidence = 0 ∧
    (fallbackClassification raw).notes = raw := by
  unfold process_conversation parseOrFallback
  rw [hfail]
  exact ⟨rfl, rfl, rfl, rfl, rfl, rfl, rfl, rfl⟩

/-- C8, witness: the fallback path at a concrete always-failing parse
and raw text. -/
theorem c8_witness :
    process_conversation (fun _ => none) [] "not json" 5
      = merge [] (fallbackClassification "not json") 5 ∧
    (fallbackClassification "not json").notes = "not json" := by
  have h := c8_parse_fallback (fun _ => none) "not json" rfl [] 5
  exact ⟨h.1, h.2.2.2.2.2.2.2⟩

/-- C9: `backfill_auto_ignore` never touches a record whose `ignore`
flag is already `true` (position and content are preserved verbatim); a
record is changed only when its `ignore` flag was `false` and its
messages satisfy the auto-ignore predicate, and then only by setting
`ignore := true`; and a second invocation on the resulting cache
auto-ignores zero records. -/
theorem c9_backfill_auto_ignore (cache : List ConvRec) :
    (∀ (i : Nat) (c0 : ConvRec), cache[i]? = some c0 → c0.ignore = true →
      (backfill_auto_ignore cache).1[i]? = some c0) ∧
    (∀ (i : Nat) (c0 c1 : ConvRec), cache[i]? = some c0 →
      (backfill_auto_ignore cache).1[i]? = some c1 → c1 ≠ c0 →
      c0.ignore = false ∧ should_auto_ignore c0.messages = true ∧
        c1 = { c0 with ignore := true }) ∧
    (backfill_auto_ignore (backfill_auto_ignore cache).1).2.2 = 0 := by
  refine ⟨?_, ?_, ?_⟩
  · intro i c0 hi hign
    unfold backfill_auto_ignore
    rw [List.getElem?_map, hi]
    simp [autoIgnoreStep_ignored hign]
  · intro i c0 c1 hi hi1 hne
    unfold backfill_auto_ignore at hi1
    rw [List.getElem?_map, hi] at hi1
    simp only [Option.map_some', Option.some_inj] at hi1
    rcases autoIgnoreStep_cases c0 with hsame | ⟨hign, hpred, hset⟩
    · rw [hsame] at hi1
      exact absurd hi1.symm hne
    · rw [hset] at hi1
      exact ⟨hign, hpred, hi1.symm⟩
  · unfold backfill_auto_ignore
    rw [List.length_eq_zero, List.filter_eq_nil_iff]
    intro a ha
    rcases List.mem_map.mp ha with ⟨c, hc, rfl⟩
    simp [autoIgnoreStep_snd_after c]

/-- C9, witness: the sticky-flag conjunct and second-run-count at the
concrete two-record cache `[convAgent, convIgnored]`. -/
theorem c9_witness :
    (backfill_auto_ignore [convAgent, convIgnored]).1[1]? = some convIgnored ∧
    (backfill_auto_ignore (backfill_auto_ignore [convAgent, convIgnored]).1).2.2 = 0 := by
  have h := c9_backfill_auto_ignore [convAgent, convIgnored]
  exact ⟨h.1 1 convIgnored rfl rfl, h.2.2⟩

/-- C10 (implicit): when a low-confidence classification names a parent
`P` that does not exist in the catalog (no entry is `P`, none starts
with `P-`) and the ticket is not linked anywhere, merge performs no
parent-existence validation: it creates the entry `P-1` with
`tickets = [t]`, appended at the very end of the catalog. -/
theorem c10_hallucinated_parent (issues : List Issue) (c : Classification) (P : String)
    (t : Nat) (hrid : c.issue_id = some P) (hne : P ≠ "")
    (hconf : c.confidence < mkRat 9 10)
    (hnl : ∀ iss ∈ issues, t ∉ iss.tickets)
    (hnp : ∀ iss ∈ issues, iss.issue_id ≠ P)
    (hnb : ∀ iss ∈ issues, ¬ (P.data ++ [dash]) <+: iss.issue_id.data) :
    merge issues c t = issues ++ [mkIssue c (P ++ "-1") [t]] := by
  have hU : updateFirstLinked c t issues = none :=
    (updateFirstLinked_none_iff c t issues).mpr hnl
  rw [merge_lowconf_new hrid hne hconf hU, next_branch_id_eq]
  have hmax : maxBranchSeg issues P = 0 := by
    unfold maxBranchSeg
    have hnil : issues.filterMap (fun iss => branchSegNum P iss.issue_id) = [] := by
      rw [List.filterMap_eq_nil_iff]
      intro iss hiss
      unfold branchSegNum
      have hpf : ¬ (P.data ++ [dash]).isPrefixOf iss.issue_id.data = true := by
        rw [List.isPrefixOf_iff_prefix]
        exact hnb iss hiss
      simp [hpf]
    rw [hnil]
    rfl
  have hins : find_branch_insert_index issues P = issues.length := by
    rw [find_branch_insert_index_eq]
    have hnone : lastRelated P issues = none := by
      rw [lastRelated_none_iff]
      intro iss hiss
      unfold relatedTo
      have h1 : (iss.issue_id == P) = false := by
        rw [beq_eq_false_iff_ne]
        exact hnp iss hiss
      have h2 : (P.data ++ [dash]).isPrefixOf iss.issue_id.data = false := by
        rw [Bool.eq_false_iff]
        intro hp
        exact hnb iss hiss (List.isPrefixOf_iff_prefix.mp hp)
      rw [h1, h2]
      rfl
    rw [hnone]
  rw [hmax, hins]
  have hid : String.mk (P.data ++ dash :: natToDec (0 + 1)) = P ++ "-1" := by
    obtain ⟨pd⟩ := P
    rfl
  rw [hid, List.insertIdx_length_self]

/-- C10, witness: a concrete hallucinated parent `GHOST` over a
one-entry catalog yields `GHOST-1` appended at the end. -/
theorem c10_witness :
    merge [sampleIssue "ISSUE-0002" [1]] (lowConfTo "GHOST") 9
      = [sampleIssue "ISSUE-0002" [1]] ++ [mkIssue (lowConfTo "GHOST") ("GHOST" ++ "-1") [9]] ∧
    ("GHOST" ++ "-1" : String) = "GHOST-1" := by
  refine ⟨c10_hallucinated_parent [sampleIssue "ISSUE-0002" [1]] (lowConfTo "GHOST") "GHOST" 9
    (by decide) (by decide) (by decide) (by decide) (by decide) ?_, by decide⟩
  intro iss hiss
  rcases List.mem_cons.mp hiss with rfl | h
  · intro hp
    exact absurd (List.isPrefixOf_iff_prefix.mpr hp) (by decide)
  · simp at h
